import Mathlib

/-!
Shallow embedding of the identifier-generation core of the event-management
backend (`src/events/models.py` and the QR-scan views in
`src/events/views.py`), together with theorems settling the specification
claims about it.

The store of bookings is modelled as a `List Booking`; Django query-set
operations are modelled as list operations on that store.  Python strings are
modelled as Lean `String`s (lists of characters); machine-level details that
no claim touches (Unicode NFKD normalisation inside Django's `slugify`, the
Unicode-aware parts of `str.upper` / `int()`) are modelled by their ASCII
restrictions, which agree with Python on every input appearing in the claims.
-/

/-- The character Python's decimal formatting produces for a digit value
`0 ≤ d ≤ 9` (only those values are ever reached). -/
def digitChar (d : Nat) : Char :=
  match d with
  | 0 => '0' | 1 => '1' | 2 => '2' | 3 => '3' | 4 => '4'
  | 5 => '5' | 6 => '6' | 7 => '7' | 8 => '8' | 9 => '9'
  | _ => '*'

/-- Decimal digits of `n`, most significant first, as Python's `str(n)`
produces them.  The first argument is fuel; `n + 1` units always suffice
(see `natDigitsAux_val`). -/
def natDigitsAux : Nat → Nat → List Char
  | 0, _ => []
  | fuel + 1, n =>
    if n < 10 then [digitChar n]
    else natDigitsAux fuel (n / 10) ++ [digitChar (n % 10)]

/-- Model of Python `str(n)` for a natural number `n`. -/
def natRepr (n : Nat) : String :=
  String.mk (natDigitsAux (n + 1) n)

/-- Model of Python's `f"{n:03d}"`: decimal digits of `n` left-padded with
zeros to a minimum width of three. -/
def pad3 (n : Nat) : String :=
  let ds := natDigitsAux (n + 1) n
  String.mk (List.replicate (3 - ds.length) '0' ++ ds)

/-- Numeric value of a list of decimal digit characters (the accumulator
loop Python's `int()` performs on a well-formed digit string). -/
def digitsVal (l : List Char) : Nat :=
  l.foldl (fun a c => a * 10 + (c.toNat - 48)) 0

/-- Model of Python `int(s)` restricted to non-empty strings of ASCII
decimal digits, the only shapes arising from generated serial numbers.
(The surrounding-whitespace, explicit-sign and underscore-grouping forms
that Python's `int()` also accepts are not modelled; no claim and no
counterexample below depends on them.)  Returns `none` where `int()`
raises `ValueError`. -/
def parseInt? (s : List Char) : Option Nat :=
  if s = [] then none
  else if s.all Char.isDigit then some (digitsVal s) else none

/-- Model of Python `s.split('-')`, working on the character list of `s`:
splits at every hyphen, keeping empty segments (as Python does). -/
def splitOnDashAux : List Char → List Char → List (List Char)
  | [], acc => [acc.reverse]
  | c :: rest, acc =>
    if c = '-' then acc.reverse :: splitOnDashAux rest []
    else splitOnDashAux rest (c :: acc)

/-- Model of Python `s.split('-')[-1]`: the segment after the last hyphen
(the whole string when there is no hyphen). -/
def lastDashSegment (s : String) : List Char :=
  (splitOnDashAux s.data []).getLastD []

/-- `int(highest_sno.split('-')[-1])` guarded by the `try`/`except` of
`Booking.generate_unique_sno`: parse the numeric suffix of a serial number,
`none` modelling the `ValueError` branch. -/
def parseSuffix? (s : String) : Option Nat :=
  parseInt? (lastDashSegment s)

/-- Model of Python `str.split()` on the character list: split on runs of
whitespace, discarding empty words. -/
def pyWordsAux : List Char → List Char → List (List Char)
  | [], acc => if acc = [] then [] else [acc.reverse]
  | c :: rest, acc =>
    if c.isWhitespace then
      (if acc = [] then pyWordsAux rest [] else acc.reverse :: pyWordsAux rest [])
    else pyWordsAux rest (c :: acc)

/-- The whitespace-separated words of a string, as Python `s.split()`
returns them. -/
def pyWords (s : String) : List (List Char) :=
  pyWordsAux s.data []

/-- `''.join([word[0].upper() for word in self.event.title.split()[:3]])`:
the event acronym, built from the uppercased first characters of up to the
first three words of the title.  (`Char.toUpper` models Python's
`str.upper` on the ASCII range; the words produced by `pyWords` are never
empty, so the `headD` default is unreachable.) -/
def acronym (title : String) : String :=
  String.mk (((pyWords title).take 3).map (fun w => (w.headD ' ').toUpper))

/-- Strict lexicographic order on character lists: the order the store uses
to sort serial-number strings. -/
def lexLt : List Char → List Char → Bool
  | [], [] => false
  | [], _ :: _ => true
  | _ :: _, [] => false
  | a :: as, b :: bs =>
    if a < b then true else if b < a then false else lexLt as bs

/-- Model of `.order_by('-sno').first()` on a list of serial numbers: the
first row under descending string order is the lexicographically greatest
serial number; `none` models the empty query set. -/
def maxSno? (l : List String) : Option String :=
  l.foldl
    (fun acc s =>
      match acc with
      | none => some s
      | some m => if lexLt m.data s.data then some s else some m)
    none

/-- A booking row, restricted to the fields the claims are about:
`event` (by id), `sno` and `is_activated`. -/
structure Booking where
  eventId : Nat
  sno : String
  isActivated : Bool
deriving DecidableEq, Repr

/-- `Booking.objects.filter(event=self.event)` projected to serial
numbers: the serial numbers of the given event's bookings, in store
order. -/
def eventSnos (store : List Booking) (eid : Nat) : List String :=
  (store.filter (fun b => b.eventId = eid)).map Booking.sno

/-- `Booking.objects.filter(sno=s).exists()`: whether any booking in the
whole store carries serial number `s`. -/
def snoExists (store : List Booking) (s : String) : Bool :=
  store.any (fun b => b.sno = s)

/-- The `while Booking.objects.filter(sno=new_sno).exists()` loop of
`generate_unique_sno`: starting from candidate number `n`, return the first
`{acro}-{pad3 m}` (`m = n, n+1, …`) absent from the store.  The loop is
written with explicit fuel; `snoRetry_stable_aux` proves that any fuel of at
least `store.length + 1` yields the same result, so the fuelled function is
the exact sequential semantics of the unbounded Python loop. -/
def snoRetry (store : List Booking) (acro : String) : Nat → Nat → String
  | n, 0 => acro ++ "-" ++ pad3 n
  | n, fuel + 1 =>
    let cand := acro ++ "-" ++ pad3 n
    if snoExists store cand then snoRetry store acro (n + 1) fuel else cand

/-- The `highest_number` local of `Booking.generate_unique_sno`: the
numeric suffix of the event's first booking under descending serial order
(`existing_bookings.first().sno`), falling back to
`existing_bookings.count()` when parsing raises, and to `0` when the event
has no bookings (`if existing_bookings.exists()` is false). -/
def highestNumber (store : List Booking) (eid : Nat) : Nat :=
  match maxSno? (eventSnos store eid) with
  | some highest_sno =>
    match parseSuffix? highest_sno with
    | some n => n
    | none => (eventSnos store eid).length
  | none => 0

/-- `Booking.generate_unique_sno` in a sequential model of the store:
acronym from the event title; base number `highest_number + 1`; then the
global-uniqueness retry loop. -/
def generate_unique_sno (store : List Booking) (eid : Nat) (title : String) : String :=
  snoRetry store (acronym title) (highestNumber store eid + 1) (store.length + 1)

/-- One character class of Python's regex `\w` on ASCII input: letters,
digits and underscore. -/
def isWordChar (c : Char) : Bool :=
  c.isAlphanum || c = '_'

/-- A character the regex `[-\s]+` of Django's `slugify` treats as a
separator: a hyphen or whitespace. -/
def isSep (c : Char) : Bool :=
  c = '-' || c.isWhitespace

/-- `re.sub(r"[-\s]+", "-", value)`: replace every maximal run of
separators by a single hyphen.  The Boolean argument records whether the
previous character belonged to a separator run. -/
def collapseSeps : Bool → List Char → List Char
  | _, [] => []
  | prevSep, c :: rest =>
    if isSep c then
      (if prevSep then [] else ['-']) ++ collapseSeps true rest
    else c :: collapseSeps false rest

/-- A character stripped from the ends by `.strip("-_")`. -/
def isDashOrUnderscore (c : Char) : Bool :=
  c = '-' || c = '_'

/-- Python `value.strip("-_")`: drop hyphens and underscores from both
ends. -/
def stripDashUnderscore (l : List Char) : List Char :=
  ((l.dropWhile isDashOrUnderscore).reverse.dropWhile isDashOrUnderscore).reverse

/-- Django's `django.utils.text.slugify` with `allow_unicode=False`, as
called by `Event.save`: drop non-ASCII characters (for ASCII titles the
NFKD-normalise-then-ASCII-encode step is exactly this; NFKD decomposition
of non-ASCII letters is not modelled), lowercase, delete every character
that is not a word character, whitespace or hyphen, collapse separator runs
to single hyphens, and strip hyphens/underscores from the ends. -/
def slugify (s : String) : String :=
  let ascii := s.data.filter (fun c => c.toNat < 128)
  let lowered := ascii.map Char.toLower
  let kept := lowered.filter (fun c => isWordChar c || c.isWhitespace || c = '-')
  String.mk (stripDashUnderscore (collapseSeps false kept))

/-- The spec's wording for the base slug, for comparison with the code's
`slugify`: "normalize title to a base slug (lowercase, non-alphanumeric
replaced by hyphens)". -/
def spec_base_slug (title : String) : String :=
  String.mk (title.data.map (fun c => if c.isAlphanum then c.toLower else '-'))

/-- The `while Event.objects.filter(slug=slug).exists()` loop of
`Event.save`: keep the current candidate `slug` unless it collides, in
which case try `{base_slug}-{counter}` for `counter = 1, 2, …`.  Fuel of
`existing.length + 1` always suffices (`slugLoop_correct`); the fuelled
function is the exact sequential semantics of the unbounded Python loop. -/
def slugLoop (existing : List String) (base_slug : String) : String → Nat → Nat → String
  | slug, _, 0 => slug
  | slug, counter, fuel + 1 =>
    if slug ∈ existing then
      slugLoop existing base_slug (base_slug ++ "-" ++ natRepr counter) (counter + 1) fuel
    else slug

/-- The slug-generation path of `Event.save`: normalise the title with
`slugify`, then disambiguate against the existing slugs. -/
def gen_slug (existing : List String) (title : String) : String :=
  let base_slug := slugify title
  slugLoop existing base_slug base_slug 1 (existing.length + 1)

/-- An event row restricted to the fields the claims are about. -/
structure Event where
  title : String
  slug : String
deriving DecidableEq, Repr

/-- The slug-assignment step of `Event.save` against the set of slugs
already in the store: generate only when the slug field is empty
(`if not self.slug or self.slug == ""`). -/
def Event.save_slug (existing : List String) (e : Event) : Event :=
  if e.slug = "" then { e with slug := gen_slug existing e.title } else e

/-- The sno-assignment step of `Booking.save` (`if not self.sno`): generate
only when the sno field is empty.  `title` is the owning event's title
(`self.event.title`); the QR-file generation and the legacy-amount copy of
`Booking.save` touch neither `sno` nor any field a claim mentions. -/
def Booking.save_sno (store : List Booking) (title : String) (b : Booking) : Booking :=
  if b.sno = "" then { b with sno := generate_unique_sno store b.eventId title } else b

/-- The body shared by the `scan_qr` action and the `scan_qr_by_sno` view:
`booking.is_activated = not booking.is_activated`. -/
def scan_qr (b : Booking) : Booking :=
  { b with isActivated := !b.isActivated }

/-- `scan_qr_by_sno`: look the booking up by serial number
(`Booking.objects.get(sno=sno)`, the store keeps snos unique so the first
match is the row), toggle its activation flag, and save; `none` models the
404 response when no booking carries the serial number. -/
def scan_qr_by_sno : List Booking → String → Option (List Booking)
  | [], _ => none
  | b :: rest, s =>
    if b.sno = s then some (scan_qr b :: rest)
    else
      match scan_qr_by_sno rest s with
      | some rest' => some (b :: rest')
      | none => none

theorem digitChar_toNat {d : Nat} (h : d < 10) : (digitChar d).toNat - 48 = d := by
  interval_cases d <;> decide

theorem natDigitsAux_val (step : Nat → Char → Nat)
    (hstep : step = fun a c => a * 10 + (c.toNat - 48)) :
    ∀ fuel n a, n < fuel →
      List.foldl step a (natDigitsAux fuel n)
        = a * 10 ^ (natDigitsAux fuel n).length + n := by
  subst hstep
  intro fuel
  induction fuel with
  | zero => intro n a h; omega
  | succ f ih =>
    intro n a h
    by_cases h10 : n < 10
    · simp [natDigitsAux, h10, digitChar_toNat h10]
    · have hn0 : 0 < n := by omega
      have hdiv : n / 10 < n := Nat.div_lt_self hn0 (by omega)
      have hf : n / 10 < f := by omega
      simp only [natDigitsAux, if_neg h10]
      rw [List.foldl_append, ih _ a hf]
      have hmod : n % 10 < 10 := Nat.mod_lt n (by omega)
      simp only [List.foldl_cons, List.foldl_nil, List.length_append,
        List.length_cons, List.length_nil, digitChar_toNat hmod]
      have hdm := Nat.div_add_mod n 10
      ring_nf
      omega

theorem digitsVal_natDigits (n : Nat) : digitsVal (natDigitsAux (n + 1) n) = n := by
  have := natDigitsAux_val _ rfl (n + 1) n 0 (Nat.lt_succ_self n)
  simpa [digitsVal] using this

theorem digitsVal_zeros (k : Nat) (l : List Char) :
    digitsVal (List.replicate k '0' ++ l) = digitsVal l := by
  induction k with
  | zero => rfl
  | succ i ih => simpa [digitsVal, List.replicate_succ] using ih

theorem digitsVal_pad3 (n : Nat) : digitsVal (pad3 n).data = n := by
  show digitsVal (List.replicate _ '0' ++ natDigitsAux (n + 1) n) = n
  rw [digitsVal_zeros, digitsVal_natDigits]

theorem pad3_inj {m n : Nat} (h : pad3 m = pad3 n) : m = n := by
  have hv := congrArg (fun s => digitsVal s.data) h
  simpa [digitsVal_pad3] using hv

theorem natRepr_inj {m n : Nat} (h : natRepr m = natRepr n) : m = n := by
  have hv := congrArg (fun s => digitsVal s.data) h
  simpa [natRepr, digitsVal_natDigits] using hv

theorem snoCand_inj {acro : String} {m n : Nat}
    (h : acro ++ "-" ++ pad3 m = acro ++ "-" ++ pad3 n) : m = n := by
  have hd := congrArg String.data h
  simp only [String.data_append] at hd
  have h2 : (pad3 m).data = (pad3 n).data := List.append_cancel_left hd
  calc m = digitsVal (pad3 m).data := (digitsVal_pad3 m).symm
    _ = digitsVal (pad3 n).data := by rw [h2]
    _ = n := digitsVal_pad3 n

theorem exists_fresh_sno (store : List Booking) (acro : String) (base : Nat) :
    ∃ c, c ≤ store.length ∧ snoExists store (acro ++ "-" ++ pad3 (base + c)) = false := by
  by_contra hcon
  push_neg at hcon
  have hall : ∀ c, c ≤ store.length →
      snoExists store (acro ++ "-" ++ pad3 (base + c)) = true := by
    intro c hc
    have := hcon c hc
    revert this
    cases snoExists store (acro ++ "-" ++ pad3 (base + c)) <;> simp
  have hmem : ∀ c : Fin (store.length + 1),
      (acro ++ "-" ++ pad3 (base + c.val)) ∈ (store.map Booking.sno).toFinset := by
    intro c
    have h1 := hall c.val (Nat.lt_succ_iff.mp c.isLt)
    rw [snoExists, List.any_eq_true] at h1
    obtain ⟨b, hb, hb2⟩ := h1
    simp only [decide_eq_true_eq] at hb2
    rw [List.mem_toFinset]
    exact hb2 ▸ List.mem_map_of_mem Booking.sno hb
  have hinj : Set.InjOn
      (fun c : Fin (store.length + 1) => acro ++ "-" ++ pad3 (base + c.val))
      ↑(Finset.univ : Finset (Fin (store.length + 1))) := by
    intro i _ j _ hij
    have := snoCand_inj hij
    exact Fin.ext (by omega)
  have hcard := Finset.card_le_card_of_injOn _ (fun a _ => hmem a) hinj
  have hlen := List.toFinset_card_le (store.map Booking.sno)
  simp only [Finset.card_univ, Fintype.card_fin, List.length_map] at hcard hlen
  omega

theorem snoRetry_fresh (store : List Booking) (acro : String) :
    ∀ fuel base,
      (∃ c, c < fuel ∧ snoExists store (acro ++ "-" ++ pad3 (base + c)) = false) →
      snoExists store (snoRetry store acro base fuel) = false := by
  intro fuel
  induction fuel with
  | zero =>
    intro base h
    obtain ⟨c, hc, _⟩ := h
    omega
  | succ f ih =>
    intro base h
    obtain ⟨c, hc, hfresh⟩ := h
    simp only [snoRetry]
    by_cases hex : snoExists store (acro ++ "-" ++ pad3 base) = true
    · rw [if_pos hex]
      apply ih
      have hc0 : c ≠ 0 := by
        intro h0
        rw [h0, Nat.add_zero] at hfresh
        rw [hfresh] at hex
        exact Bool.false_ne_true hex
      obtain ⟨c', rfl⟩ := Nat.exists_eq_succ_of_ne_zero hc0
      refine ⟨c', by omega, ?_⟩
      rw [show base + 1 + c' = base + (c' + 1) by omega]
      exact hfresh
    · rw [if_neg hex]
      exact Bool.not_eq_true _ ▸ Bool.of_not_eq_true hex

theorem snoRetry_stable_aux (store : List Booking) (acro : String) :
    ∀ f₁ f₂ base, f₁ ≤ f₂ →
      (∃ c, c < f₁ ∧ snoExists store (acro ++ "-" ++ pad3 (base + c)) = false) →
      snoRetry store acro base f₁ = snoRetry store acro base f₂ := by
  intro f₁
  induction f₁ with
  | zero =>
    intro f₂ base _ h
    obtain ⟨c, hc, _⟩ := h
    omega
  | succ f ih =>
    intro f₂ base hle h
    obtain ⟨c, hc, hfresh⟩ := h
    obtain ⟨g, rfl⟩ : ∃ g, f₂ = g + 1 := ⟨f₂ - 1, by omega⟩
    simp only [snoRetry]
    by_cases hex : snoExists store (acro ++ "-" ++ pad3 base) = true
    · rw [if_pos hex, if_pos hex]
      have hc0 : c ≠ 0 := by
        intro h0
        rw [h0, Nat.add_zero] at hfresh
        rw [hfresh] at hex
        exact Bool.false_ne_true hex
      obtain ⟨c', rfl⟩ := Nat.exists_eq_succ_of_ne_zero hc0
      apply ih g (base + 1) (by omega)
      refine ⟨c', by omega, ?_⟩
      rw [show base + 1 + c' = base + (c' + 1) by omega]
      exact hfresh
    · rw [if_neg hex, if_neg hex]

theorem snoRetry_form (store : List Booking) (acro : String) :
    ∀ fuel base, ∃ m, base ≤ m ∧ snoRetry store acro base fuel = acro ++ "-" ++ pad3 m := by
  intro fuel
  induction fuel with
  | zero => intro base; exact ⟨base, Nat.le_refl _, rfl⟩
  | succ f ih =>
    intro base
    simp only [snoRetry]
    by_cases hex : snoExists store (acro ++ "-" ++ pad3 base) = true
    · rw [if_pos hex]
      obtain ⟨m, hm, he⟩ := ih (base + 1)
      exact ⟨m, by omega, he⟩
    · rw [if_neg hex]
      exact ⟨base, Nat.le_refl _, rfl⟩

theorem snoRetry_result_fresh (store : List Booking) (acro : String) (base : Nat) :
    snoExists store (snoRetry store acro base (store.length + 1)) = false := by
  obtain ⟨c, hc, hf⟩ := exists_fresh_sno store acro base
  exact snoRetry_fresh store acro (store.length + 1) base ⟨c, by omega, hf⟩

/-- C1: in a sequential model of the store, the serial number returned by
`Booking.generate_unique_sno` differs from the `sno` of every existing
booking, across all events — the global uniqueness re-check leaves the loop
only on a serial number absent from the whole store. -/
theorem generate_unique_sno_fresh (store : List Booking) (eid : Nat) (title : String) :
    snoExists store (generate_unique_sno store eid title) = false := by
  simp only [generate_unique_sno]
  exact snoRetry_result_fresh store (acronym title) _

/-- C9: the uniqueness-retry loop of `generate_unique_sno` terminates on
every fixed store: its candidate serial numbers are pairwise distinct
strings, so within `store.length + 1` probes it reaches a serial number not
present in the store — any fuel of at least `store.length + 1` returns the
same, fresh, result. -/
theorem snoRetry_terminates (store : List Booking) (acro : String) (base : Nat) :
    (∀ i j : Nat, i ≠ j → acro ++ "-" ++ pad3 (base + i) ≠ acro ++ "-" ++ pad3 (base + j)) ∧
    (∀ fuel, store.length + 1 ≤ fuel →
      snoRetry store acro base fuel = snoRetry store acro base (store.length + 1)) ∧
    snoExists store (snoRetry store acro base (store.length + 1)) = false := by
  refine ⟨?_, ?_, snoRetry_result_fresh store acro base⟩
  · intro i j hij heq
    have := snoCand_inj heq
    exact hij (by omega)
  · intro fuel hfuel
    obtain ⟨c, hc, hf⟩ := exists_fresh_sno store acro base
    exact (snoRetry_stable_aux store acro (store.length + 1) fuel base hfuel
      ⟨c, by omega, hf⟩).symm

theorem snoRetry_first (store : List Booking) (acro : String) (n fuel : Nat)
    (hfresh : snoExists store (acro ++ "-" ++ pad3 n) = false) :
    snoRetry store acro n (fuel + 1) = acro ++ "-" ++ pad3 n := by
  simp only [snoRetry]
  rw [if_neg (by rw [hfresh]; exact Bool.false_ne_true)]

/-- C3: every serial number `generate_unique_sno` returns has the shape
`{ACRONYM}-{NNN}` with `ACRONYM` the uppercased first letters of up to the
first three whitespace-separated words of the event title and `NNN` the
sequence number (at least `1`) zero-padded to a minimum of three digits;
for a title with no words the acronym is empty and the first serial number
generated is exactly `"-001"`. -/
theorem sno_shape :
    (∀ (store : List Booking) (eid : Nat) (title : String),
      ∃ k, 1 ≤ k ∧
        generate_unique_sno store eid title = acronym title ++ "-" ++ pad3 k) ∧
    acronym ("") = "" ∧
    generate_unique_sno [] 1 "" = "-001" := by
  refine ⟨?_, by decide, by decide⟩
  intro store eid title
  obtain ⟨m, hm, he⟩ :=
    snoRetry_form store (acronym title) (store.length + 1) (highestNumber store eid + 1)
  exact ⟨m, by omega, by simpa [generate_unique_sno] using he⟩

/-- C2, counterexample: event 1 ("Apple", acronym "A") has the two
well-formed serial numbers "A-5" (suffix 5) and "A-010" (suffix 10).  The
scan orders by descending string, whose top entry is "A-5" (strings compare
character-wise, so "A-5" > "A-010"), so the code generates "A-006" with
sequence component 6, not max(5, 10) + 1 = 11. -/
theorem sno_seq_not_max_succ :
    generate_unique_sno [⟨1, "A-5", false⟩, ⟨1, "A-010", false⟩] 1 "Apple" = "A-006" ∧
    parseSuffix? ("A-5") = some 5 ∧
    parseSuffix? ("A-010") = some 10 ∧
    parseSuffix? ("A-006") = some 6 ∧
    (6 : Nat) ≠ 10 + 1 := by
  refine ⟨by decide, by decide, by decide, by decide, by decide⟩

/-- C2, amended: the sequence component of the next serial number equals
the parsed numeric suffix of the string-maximal (first under descending
serial order) existing serial of the event, plus one — provided that
candidate collides with no existing booking; the string-maximal entry need
not carry the maximal numeric suffix. -/
theorem sno_seq_from_descending_top (store : List Booking) (eid : Nat) (title : String)
    (s : String) (k : Nat)
    (htop : maxSno? (eventSnos store eid) = some s)
    (hparse : parseSuffix? s = some k)
    (hfresh : snoExists store (acronym title ++ "-" ++ pad3 (k + 1)) = false) :
    generate_unique_sno store eid title = acronym title ++ "-" ++ pad3 (k + 1) := by
  have hbase : highestNumber store eid = k := by
    simp [highestNumber, htop, hparse]
  obtain ⟨g, hg⟩ : ∃ g, store.length + 1 = g + 1 := ⟨store.length, rfl⟩
  rw [generate_unique_sno, hbase, hg]
  exact snoRetry_first store (acronym title) (k + 1) g hfresh

theorem sno_seq_from_descending_top_witness :
    generate_unique_sno [⟨1, "ATS-007", false⟩] 1 "Annual Tech Summit"
      = acronym ("Annual Tech Summit") ++ "-" ++ pad3 8 :=
  sno_seq_from_descending_top [⟨1, "ATS-007", false⟩] 1 "Annual Tech Summit"
    "ATS-007" 7 (by decide) (by decide) (by decide)

/-- C4, counterexample: event 1 ("Annual Tech Summit") has no bookings, yet
its first generated serial number is "ATS-002", not sequence component
`001`: another event's booking already holds "ATS-001", and the global
uniqueness re-check increments past it. -/
theorem first_sno_not_always_001 :
    eventSnos [⟨2, "ATS-001", false⟩] 1 = [] ∧
    generate_unique_sno [⟨2, "ATS-001", false⟩] 1 "Annual Tech Summit" = "ATS-002" ∧
    parseSuffix? ("ATS-002") = some 2 ∧
    (2 : Nat) ≠ 1 := by
  refine ⟨by decide, by decide, by decide, by decide⟩

/-- C4, amended: for an event with no existing bookings the first serial
number generated has sequence component `001`, provided no booking of
another event already holds the candidate `{ACRONYM}-001`; in particular
"Annual Tech Summit" yields "ATS-001" on an empty store and "ATS-002" for
its second booking. -/
theorem first_sno_001 :
    (∀ (store : List Booking) (eid : Nat) (title : String),
      eventSnos store eid = [] →
      snoExists store (acronym title ++ "-" ++ pad3 1) = false →
      generate_unique_sno store eid title = acronym title ++ "-" ++ pad3 1) ∧
    generate_unique_sno [] 1 "Annual Tech Summit" = "ATS-001" ∧
    generate_unique_sno [⟨1, "ATS-001", false⟩] 1 "Annual Tech Summit" = "ATS-002" := by
  refine ⟨?_, by decide, by decide⟩
  intro store eid title hempty hfresh
  have hbase : highestNumber store eid = 0 := by
    simp [highestNumber, hempty, maxSno?]
  obtain ⟨g, hg⟩ : ∃ g, store.length + 1 = g + 1 := ⟨store.length, rfl⟩
  rw [generate_unique_sno, hbase, hg]
  exact snoRetry_first store (acronym title) 1 g hfresh

theorem first_sno_001_witness :
    generate_unique_sno [⟨2, "B-777", false⟩] 1 "Go Fast Now"
      = acronym ("Go Fast Now") ++ "-" ++ pad3 1 :=
  first_sno_001.1 [⟨2, "B-777", false⟩] 1 "Go Fast Now" (by decide) (by decide)

/-- C6: when the event has bookings but the numeric suffix of the top entry
under descending serial order fails to parse, `generate_unique_sno`
recovers locally: the base number becomes the count of the event's
bookings, incremented by one; the function still returns a well-formed
serial number (the model is total — no exception reaches the caller), and
when the fallback candidate is globally fresh it is returned as is. -/
theorem sno_parse_fallback (store : List Booking) (eid : Nat) (title : String) (s : String)
    (htop : maxSno? (eventSnos store eid) = some s)
    (hparse : parseSuffix? s = none) :
    (∃ m, (eventSnos store eid).length + 1 ≤ m ∧
      generate_unique_sno store eid title = acronym title ++ "-" ++ pad3 m) ∧
    (snoExists store (acronym title ++ "-" ++ pad3 ((eventSnos store eid).length + 1)) = false →
      generate_unique_sno store eid title
        = acronym title ++ "-" ++ pad3 ((eventSnos store eid).length + 1)) := by
  have hbase : highestNumber store eid = (eventSnos store eid).length := by
    simp [highestNumber, htop, hparse]
  constructor
  · obtain ⟨m, hm, he⟩ :=
      snoRetry_form store (acronym title) (store.length + 1) (highestNumber store eid + 1)
    refine ⟨m, by omega, ?_⟩
    rw [generate_unique_sno]
    exact he
  · intro hfresh
    obtain ⟨g, hg⟩ : ∃ g, store.length + 1 = g + 1 := ⟨store.length, rfl⟩
    rw [generate_unique_sno, hbase, hg]
    exact snoRetry_first store (acronym title) _ g hfresh

theorem sno_parse_fallback_witness :
    generate_unique_sno [⟨1, "ATS-", false⟩] 1 "Annual Tech Summit"
      = acronym ("Annual Tech Summit") ++ "-"
        ++ pad3 ((eventSnos [⟨1, "ATS-", false⟩] 1).length + 1) :=
  (sno_parse_fallback [⟨1, "ATS-", false⟩] 1 "Annual Tech Summit" "ATS-"
    (by decide) (by decide)).2 (by decide)

theorem snoRetry_terminates_witness :
    ("A" ++ "-" ++ pad3 (1 + 0) ≠ "A" ++ "-" ++ pad3 (1 + 1)) ∧
    snoRetry [] "A" 1 5 = snoRetry [] "A" 1 (([] : List Booking).length + 1) :=
  ⟨(snoRetry_terminates [] "A" 1).1 0 1 (by decide),
   (snoRetry_terminates [] "A" 1).2.1 5 (by decide)⟩

/-- The candidate sequence of the slug-disambiguation loop of `Event.save`:
the base slug itself first, then `{base_slug}-{counter}` for
`counter = 1, 2, …`. -/
def slugCand (base : String) : Nat → String
  | 0 => base
  | k + 1 => base ++ "-" ++ natRepr (k + 1)

theorem natDigitsAux_ne_nil (fuel n : Nat) : natDigitsAux (fuel + 1) n ≠ [] := by
  simp only [natDigitsAux]
  by_cases h : n < 10
  · simp [h]
  · simp [h]

theorem natRepr_length_pos (n : Nat) : 0 < (natRepr n).length := by
  show 0 < (natDigitsAux (n + 1) n).length
  cases hh : natDigitsAux (n + 1) n with
  | nil => exact absurd hh (natDigitsAux_ne_nil n n)
  | cons a l => simp

theorem slugCand_inj {base : String} {i j : Nat}
    (h : slugCand base i = slugCand base j) : i = j := by
  match i, j with
  | 0, 0 => rfl
  | 0, k + 1 =>
    exfalso
    have hd := congrArg String.length h
    simp only [slugCand, String.length_append] at hd
    have h1 : ("-" : String).length = 1 := by decide
    have h2 := natRepr_length_pos (k + 1)
    omega
  | k + 1, 0 =>
    exfalso
    have hd := congrArg String.length h
    simp only [slugCand, String.length_append] at hd
    have h1 : ("-" : String).length = 1 := by decide
    have h2 := natRepr_length_pos (k + 1)
    omega
  | k + 1, l + 1 =>
    have hd := congrArg String.data h
    simp only [slugCand, String.data_append] at hd
    have h2 : (natRepr (k + 1)).data = (natRepr (l + 1)).data := List.append_cancel_left hd
    have hv : digitsVal (natDigitsAux (k + 1 + 1) (k + 1))
        = digitsVal (natDigitsAux (l + 1 + 1) (l + 1)) := congrArg digitsVal h2
    rw [digitsVal_natDigits, digitsVal_natDigits] at hv
    omega

theorem exists_fresh_slug (existing : List String) (base : String) :
    ∃ c, c ≤ existing.length ∧ slugCand base c ∉ existing := by
  by_contra hcon
  push_neg at hcon
  have hmem : ∀ c : Fin (existing.length + 1), slugCand base c.val ∈ existing.toFinset := by
    intro c
    rw [List.mem_toFinset]
    exact hcon c.val (Nat.lt_succ_iff.mp c.isLt)
  have hinj : Set.InjOn (fun c : Fin (existing.length + 1) => slugCand base c.val)
      ↑(Finset.univ : Finset (Fin (existing.length + 1))) := by
    intro i _ j _ hij
    exact Fin.ext (slugCand_inj hij)
  have hcard := Finset.card_le_card_of_injOn _ (fun a _ => hmem a) hinj
  have hlen := List.toFinset_card_le existing
  simp only [Finset.card_univ, Fintype.card_fin] at hcard
  omega

theorem slugLoop_correct (existing : List String) (base : String) :
    ∀ fuel k, (∃ c, c < fuel ∧ slugCand base (k + c) ∉ existing) →
      ∃ m, slugLoop existing base (slugCand base k) (k + 1) fuel = slugCand base m ∧
        k ≤ m ∧ slugCand base m ∉ existing ∧
        ∀ j, k ≤ j → j < m → slugCand base j ∈ existing := by
  intro fuel
  induction fuel with
  | zero =>
    intro k h
    obtain ⟨c, hc, _⟩ := h
    omega
  | succ f ih =>
    intro k h
    obtain ⟨c, hc, hfresh⟩ := h
    simp only [slugLoop]
    by_cases hmem : slugCand base k ∈ existing
    · rw [if_pos hmem]
      have hc0 : c ≠ 0 := by
        intro h0
        rw [h0, Nat.add_zero] at hfresh
        exact hfresh hmem
      obtain ⟨c', rfl⟩ := Nat.exists_eq_succ_of_ne_zero hc0
      obtain ⟨m, he, hkm, hf, hmin⟩ := ih (k + 1)
        ⟨c', by omega, by rw [show k + 1 + c' = k + (c' + 1) by omega]; exact hfresh⟩
      refine ⟨m, he, by omega, hf, ?_⟩
      intro j hj1 hj2
      by_cases hj : j = k
      · rw [hj]; exact hmem
      · exact hmin j (by omega) hj2
    · rw [if_neg hmem]
      exact ⟨k, rfl, Nat.le_refl k, hmem,
        fun j hj1 hj2 => absurd (Nat.lt_of_le_of_lt hj1 hj2) (lt_irrefl k)⟩

/-- C5: slug generation is a function of the title and the existing slugs
whose result is never already present: when the base slug (from `slugify`)
is unused it is returned as is, otherwise the first unused value among
`{base}-1`, `{base}-2`, … is returned; creating "Annual Tech Summit" twice
yields `annual-tech-summit` then `annual-tech-summit-1`. -/
theorem gen_slug_spec (title : String) (existing : List String) :
    gen_slug existing title ∉ existing ∧
    (slugify title ∉ existing → gen_slug existing title = slugify title) ∧
    (slugify title ∈ existing →
      ∃ k, 1 ≤ k ∧ gen_slug existing title = slugify title ++ "-" ++ natRepr k ∧
        ∀ j, 1 ≤ j → j < k → slugify title ++ "-" ++ natRepr j ∈ existing) ∧
    gen_slug [] "Annual Tech Summit" = "annual-tech-summit" ∧
    gen_slug ["annual-tech-summit"] "Annual Tech Summit" = "annual-tech-summit-1" := by
  obtain ⟨c, hc, hfresh⟩ := exists_fresh_slug existing (slugify title)
  obtain ⟨m, he, _, hf, hmin⟩ := slugLoop_correct existing (slugify title)
    (existing.length + 1) 0 ⟨c, by omega, by rw [Nat.zero_add]; exact hfresh⟩
  have hgen : gen_slug existing title = slugCand (slugify title) m := he
  refine ⟨?_, ?_, ?_, by decide, by decide⟩
  · rw [hgen]; exact hf
  · intro hbase
    have hm0 : m = 0 := by
      by_contra hm
      exact hbase (hmin 0 (Nat.zero_le 0) (by omega))
    rw [hgen, hm0]
    rfl
  · intro hbase
    have hm0 : m ≠ 0 := by
      intro hm
      rw [hm] at hf
      exact hf hbase
    obtain ⟨m', rfl⟩ := Nat.exists_eq_succ_of_ne_zero hm0
    refine ⟨m' + 1, by omega, hgen, ?_⟩
    intro j hj1 hj2
    obtain ⟨j', rfl⟩ := Nat.exists_eq_succ_of_ne_zero (by omega : j ≠ 0)
    exact hmin (j' + 1) (Nat.zero_le _) hj2

theorem gen_slug_spec_witness :
    gen_slug ["other-slug"] "Annual Tech Summit" = slugify ("Annual Tech Summit") ∧
    (∃ k, 1 ≤ k ∧
      gen_slug ["annual-tech-summit"] "Annual Tech Summit"
        = slugify ("Annual Tech Summit") ++ "-" ++ natRepr k ∧
      ∀ j, 1 ≤ j → j < k →
        slugify ("Annual Tech Summit") ++ "-" ++ natRepr j ∈ ["annual-tech-summit"]) :=
  ⟨(gen_slug_spec ("Annual Tech Summit") ["other-slug"]).2.1 (by decide),
   (gen_slug_spec ("Annual Tech Summit") ["annual-tech-summit"]).2.2.1 (by decide)⟩

/-- C8: neither identifier is regenerated once assigned: saving a booking
whose `sno` is non-empty leaves the `sno` unchanged, and saving an event
whose `slug` is non-empty leaves the `slug` unchanged. -/
theorem identifiers_assigned_once :
    (∀ (store : List Booking) (title : String) (b : Booking),
      b.sno ≠ "" → (Booking.save_sno store title b).sno = b.sno) ∧
    (∀ (existing : List String) (e : Event),
      e.slug ≠ "" → (Event.save_slug existing e).slug = e.slug) := by
  constructor
  · intro store title b h
    rw [Booking.save_sno, if_neg h]
  · intro existing e h
    rw [Event.save_slug, if_neg h]

theorem identifiers_assigned_once_witness :
    (Booking.save_sno [] "Tech Meetup" ⟨1, "TM-001", false⟩).sno = "TM-001" ∧
    (Event.save_slug [] ⟨"Tech Meetup", "tech-meetup"⟩).slug = "tech-meetup" :=
  ⟨identifiers_assigned_once.1 [] "Tech Meetup" ⟨1, "TM-001", false⟩ (by decide),
   identifiers_assigned_once.2 [] ⟨"Tech Meetup", "tech-meetup"⟩ (by decide)⟩

theorem scan_qr_involutive (b : Booking) : scan_qr (scan_qr b) = b := by
  cases b
  simp [scan_qr]

/-- C10: the QR-scan endpoints are not idempotent activators — each call
negates `is_activated`, so a scan of an already-activated ticket
deactivates it, and two consecutive scans by serial number restore the
store to its original state. -/
theorem scan_toggles_activation :
    (∀ b : Booking, (scan_qr b).isActivated = !b.isActivated) ∧
    (∀ b : Booking, b.isActivated = true → (scan_qr b).isActivated = false) ∧
    (∀ (store : List Booking) (s : String) (store' : List Booking),
      scan_qr_by_sno store s = some store' → scan_qr_by_sno store' s = some store) := by
  refine ⟨fun b => rfl, ?_, ?_⟩
  · intro b h
    simp [scan_qr, h]
  · intro store
    induction store with
    | nil =>
      intro s store' h
      simp [scan_qr_by_sno] at h
    | cons b rest ih =>
      intro s store' h
      simp only [scan_qr_by_sno] at h
      by_cases hb : b.sno = s
      · rw [if_pos hb] at h
        injection h with h
        rw [← h]
        simp only [scan_qr_by_sno]
        rw [if_pos (show (scan_qr b).sno = s from hb)]
        rw [scan_qr_involutive]
      · rw [if_neg hb] at h
        cases hrec : scan_qr_by_sno rest s with
        | none =>
          rw [hrec] at h
          exact absurd h (by simp)
        | some rest' =>
          rw [hrec] at h
          injection h with h
          rw [← h]
          simp only [scan_qr_by_sno]
          rw [if_neg hb, ih s rest' hrec]

theorem scan_toggles_activation_witness :
    (scan_qr (⟨1, "A-001", true⟩ : Booking)).isActivated = false ∧
    scan_qr_by_sno [⟨1, "A-001", false⟩] "A-001" = some [⟨1, "A-001", true⟩] :=
  ⟨scan_toggles_activation.2.1 ⟨1, "A-001", true⟩ rfl,
   scan_toggles_activation.2.2 [⟨1, "A-001", true⟩] "A-001" [⟨1, "A-001", false⟩]
     (by decide)⟩

theorem mem_collapseSeps :
    ∀ (l : List Char) (prev : Bool) (c : Char),
      (∀ d ∈ l, (isWordChar d || d.isWhitespace || d = '-') = true) →
      c ∈ collapseSeps prev l →
      (isWordChar c || c = '-') = true := by
  intro l
  induction l with
  | nil =>
    intro prev c _ hc
    simp [collapseSeps] at hc
  | cons a rest ih =>
    intro prev c hall hc
    simp only [collapseSeps] at hc
    by_cases ha : isSep a = true
    · rw [if_pos ha] at hc
      rcases List.mem_append.mp hc with h1 | h2
      · cases prev with
        | true => simp at h1
        | false =>
          simp at h1
          rw [h1]
          simp
      · exact ih true c (fun d hd => hall d (List.mem_cons_of_mem a hd)) h2
    · rw [if_neg ha] at hc
      rcases List.mem_cons.mp hc with h1 | h2
      · rw [h1]
        have h3 := hall a (List.mem_cons_self a rest)
        simp only [isSep, Bool.or_eq_true, decide_eq_true_eq] at ha h3 ⊢
        tauto
      · exact ih false c (fun d hd => hall d (List.mem_cons_of_mem a hd)) h2

theorem mem_stripDashUnderscore {l : List Char} {c : Char}
    (h : c ∈ stripDashUnderscore l) : c ∈ l := by
  rw [stripDashUnderscore, List.mem_reverse] at h
  have h2 := (List.dropWhile_sublist _).subset h
  rw [List.mem_reverse] at h2
  exact (List.dropWhile_sublist _).subset h2

theorem head_dropWhile_false (p : Char → Bool) :
    ∀ (l : List Char) {c : Char} {rest : List Char},
      l.dropWhile p = c :: rest → p c = false := by
  intro l
  induction l with
  | nil =>
    intro c rest h
    simp [List.dropWhile] at h
  | cons a as ih =>
    intro c rest h
    rw [List.dropWhile_cons] at h
    by_cases hpa : p a = true
    · rw [if_pos hpa] at h
      exact ih h
    · rw [if_neg hpa] at h
      injection h with h1 _
      rw [← h1]
      cases hb : p a with
      | true => exact absurd hb hpa
      | false => rfl

theorem head?_dropWhile_false (p : Char → Bool) (l : List Char) (c : Char)
    (h : (l.dropWhile p).head? = some c) : p c = false := by
  cases hd : l.dropWhile p with
  | nil => rw [hd] at h; simp at h
  | cons a rest =>
    rw [hd] at h
    simp only [List.head?_cons, Option.some.injEq] at h
    rw [← h]
    exact head_dropWhile_false p l hd

theorem head?_stripDashUnderscore (l : List Char) (c : Char)
    (h : (stripDashUnderscore l).head? = some c) : isDashOrUnderscore c = false := by
  have hpre : stripDashUnderscore l <+: l.dropWhile isDashOrUnderscore :=
    List.rdropWhile_prefix isDashOrUnderscore (l.dropWhile isDashOrUnderscore)
  obtain ⟨t, ht⟩ := hpre
  have h2 : (l.dropWhile isDashOrUnderscore).head? = some c := by
    rw [← ht, List.head?_append, h]
    rfl
  exact head?_dropWhile_false _ _ _ h2

theorem getLast?_stripDashUnderscore (l : List Char) (c : Char)
    (h : (stripDashUnderscore l).getLast? = some c) : isDashOrUnderscore c = false := by
  rw [stripDashUnderscore, List.getLast?_reverse] at h
  exact head?_dropWhile_false _ _ _ h

/-- C7, counterexample: the spec says the base slug replaces every
non-alphanumeric character by a hyphen, but Django's `slugify` deletes
punctuation instead of hyphenating it: for the title "a!b" the code
produces "ab" while the spec's wording produces "a-b". -/
theorem base_slug_not_hyphen_replacement :
    slugify ("a!b") = "ab" ∧
    spec_base_slug ("a!b") = "a-b" ∧
    slugify ("a!b") ≠ spec_base_slug ("a!b") := by
  refine ⟨by decide, by decide, by decide⟩

/-- C7, amended: the base slug is Django's `slugify` of the title —
lowercased, with characters other than word characters, whitespace and
hyphens removed (not hyphenated), whitespace/hyphen runs collapsed to a
single hyphen, and leading/trailing hyphens and underscores stripped.  In
particular every character of the base slug is a word character (letter,
digit or underscore) or a hyphen, and the base slug neither starts nor ends
with a hyphen or underscore. -/
theorem slugify_shape (t : String) :
    ((slugify t).data.all (fun c => isWordChar c || c = '-')) = true ∧
    (∀ c, (slugify t).data.head? = some c → isDashOrUnderscore c = false) ∧
    (∀ c, (slugify t).data.getLast? = some c → isDashOrUnderscore c = false) := by
  refine ⟨?_, ?_, ?_⟩
  · rw [List.all_eq_true]
    intro c hc
    have hc2 : c ∈ stripDashUnderscore
        (collapseSeps false
          (((t.data.filter (fun c => c.toNat < 128)).map Char.toLower).filter
            (fun c => isWordChar c || c.isWhitespace || c = '-'))) := hc
    have hc3 := mem_stripDashUnderscore hc2
    exact mem_collapseSeps _ false c (fun d hd => (List.mem_filter.mp hd).2) hc3
  · intro c hc
    exact head?_stripDashUnderscore _ c hc
  · intro c hc
    exact getLast?_stripDashUnderscore _ c hc

theorem slugify_shape_witness :
    isDashOrUnderscore 'a' = false ∧
    ((slugify ("Annual Tech Summit")).data.all (fun c => isWordChar c || c = '-')) = true :=
  ⟨(slugify_shape ("Annual Tech Summit")).2.1 'a' (by decide),
   (slugify_shape ("Annual Tech Summit")).1⟩
